import Mathlib

/-!
Verification of the WeTextProcessing JNI binding layer
(src/runtime/java/src/main/cpp/wetext_jni.cc) and of the text-normalization
core it exposes, as described by the specification.

The binding layer is embedded shallowly: each JNI entry point becomes a pure
Lean function that returns its result together with a trace of the boundary
events it performs (string-buffer acquisition and release, calls into the
native engine, construction of the managed result string, and release of the
native result string).  The native engine behind the C API is abstracted as a
structure of functions whose results may be null (Option).

The normalization core itself (tagger, verbalizer, pipeline, grammar loading)
is not part of the visible sources; it is modelled from the specification,
with each such definition marked in its doc comment.
-/

/-- A boundary event performed by a JNI entry point: acquiring or releasing
a UTF character buffer of a managed string, calling into the native engine,
building the managed result string, or freeing the native result string. -/
inductive Event where
  | getChars (s : String)
  | releaseChars (s : String)
  | engCreate (taggerPath verbalizerPath : String)
  | engDestroy (handle : Nat)
  | engNormalize (handle : Nat) (text : String)
  | engTag (handle : Nat) (text : String)
  | engVerbalize (handle : Nat) (text : String)
  | engFreeString
  | newStringUTF (s : String)
deriving DecidableEq

/-- The native engine behind the C API, abstracted: creation returns a handle
value (0 is the null handle), and each text operation returns either a string
or null (`none`). -/
structure NativeEngine where
  create : String → String → Nat
  normalize : Nat → String → Option String
  tag : Nat → String → Option String
  verbalize : Nat → String → Option String

/-- Whether an event is a call into the native engine. -/
def isEngineCall : Event → Bool
  | Event.engCreate _ _ => true
  | Event.engDestroy _ => true
  | Event.engNormalize _ _ => true
  | Event.engTag _ _ => true
  | Event.engVerbalize _ _ => true
  | _ => false

/-- Number of occurrences of an event in a trace. -/
def countEv (e : Event) : List Event → Nat
  | [] => 0
  | x :: xs => (if x = e then 1 else 0) + countEv e xs

/-- Embedding of Java_com_wetext_WetextProcessor_nativeCreateProcessor: gets
both path buffers, calls wetext_create_processor, releases both buffers, and
returns the handle. -/
def nativeCreateProcessor (eng : NativeEngine) (taggerPath verbalizerPath : String) :
    Nat × List Event :=
  let handle := eng.create taggerPath verbalizerPath
  (handle,
    [Event.getChars taggerPath, Event.getChars verbalizerPath,
     Event.engCreate taggerPath verbalizerPath,
     Event.releaseChars taggerPath, Event.releaseChars verbalizerPath])

/-- Embedding of Java_com_wetext_WetextProcessor_nativeDestroyProcessor: calls
wetext_destroy_processor only when the handle is non-zero.  The function
returns the trace of engine calls it performs. -/
def nativeDestroyProcessor (handle : Nat) : List Event :=
  if handle ≠ 0 then [Event.engDestroy handle] else []

/-- Embedding of Java_com_wetext_WetextProcessor_nativeNormalize: on a zero
handle it returns the empty string at once; otherwise it gets the input
buffer, calls wetext_normalize, releases the buffer, copies the result (or ""
when the result is null) into a managed string, and frees the native result
exactly when it is non-null. -/
def nativeNormalize (eng : NativeEngine) (handle : Nat) (input : String) :
    String × List Event :=
  if handle = 0 then
    ("", [Event.newStringUTF ""])
  else
    let result := eng.normalize handle input
    let callTrace := [Event.getChars input, Event.engNormalize handle input,
                      Event.releaseChars input]
    match result with
    | some r => (r, callTrace ++ [Event.newStringUTF r, Event.engFreeString])
    | none => ("", callTrace ++ [Event.newStringUTF ""])

/-- Modelled from the spec: a tagger grammar rule (the tagging automaton is
not in the visible sources).  A rule recognizes a concrete pattern at the
current position and classifies the matched span with a semantic category. -/
structure Rule where
  pattern : List Char
  category : String
deriving DecidableEq

/-- Modelled from the spec: a rule applies at a position when its (nonempty)
pattern is a prefix of the remaining input. -/
def ruleMatches (r : Rule) (cs : List Char) : Bool :=
  !r.pattern.isEmpty && r.pattern.isPrefixOf cs

/-- Modelled from the spec: maximal-munch rule selection.  Among the rules
that match at the current position, the one with the longest pattern is
chosen; among equally long matches the earlier rule in the grammar (higher
priority) wins.  The chosen rule is returned together with the evidence that
it matches at the current position. -/
def pickRule (rules : List Rule) (cs : List Char) :
    Option {r : Rule // ruleMatches r cs = true} :=
  match rules with
  | [] => none
  | r :: rest =>
    if h : ruleMatches r cs then
      match pickRule rest cs with
      | none => some ⟨r, h⟩
      | some b =>
        if r.pattern.length < b.val.pattern.length then some b else some ⟨r, h⟩
    else pickRule rest cs

/-- Modelled from the spec: a tagged span, either an untagged pass-through
region of the input or a region matched by a rule and annotated with its
semantic category.  Spans are produced in document order. -/
inductive TaggedSpan where
  | plain (text : List Char)
  | tagged (category : String) (text : List Char)
deriving DecidableEq

/-- The raw text carried by a span. -/
def spanText : TaggedSpan → List Char
  | TaggedSpan.plain t => t
  | TaggedSpan.tagged _ t => t

/-- Concatenation of the raw text of a span sequence (what remains after the
annotation markers are stripped from the serialized tagged form). -/
def spansText (spans : List TaggedSpan) : List Char :=
  spans.foldr (fun s acc => spanText s ++ acc) []

/-- Modelled from the spec: the tagger of wetext_tag.  It scans the input
left to right; at each position it applies the maximal-munch rule choice,
emitting a tagged span for the matched pattern and consuming it, and passes a
single unmatched character through verbatim as an untagged span. -/
def tagChars (rules : List Rule) (cs : List Char) : List TaggedSpan :=
  match cs with
  | [] => []
  | c :: rest =>
    match pickRule rules (c :: rest) with
    | some r =>
        TaggedSpan.tagged r.val.category r.val.pattern ::
          tagChars rules ((c :: rest).drop r.val.pattern.length)
    | none => TaggedSpan.plain [c] :: tagChars rules rest
termination_by cs.length
decreasing_by
  · have hm := r.property
    have hne : r.val.pattern ≠ [] := by
      have := (Bool.and_eq_true _ _).mp hm
      simpa using this.1
    have hpos : 0 < r.val.pattern.length := List.length_pos.mpr hne
    simp only [List.length_drop, List.length_cons]
    omega
  · simp

/-- Embedding of Java_com_wetext_WetextProcessor_nativeTag; same structure as
nativeNormalize but calling wetext_tag. -/
def nativeTag (eng : NativeEngine) (handle : Nat) (input : String) :
    String × List Event :=
  if handle = 0 then
    ("", [Event.newStringUTF ""])
  else
    let result := eng.tag handle input
    let callTrace := [Event.getChars input, Event.engTag handle input,
                      Event.releaseChars input]
    match result with
    | some r => (r, callTrace ++ [Event.newStringUTF r, Event.engFreeString])
    | none => ("", callTrace ++ [Event.newStringUTF ""])

/-- Embedding of Java_com_wetext_WetextProcessor_nativeVerbalize; same
structure as nativeNormalize but calling wetext_verbalize. -/
def nativeVerbalize (eng : NativeEngine) (handle : Nat) (input : String) :
    String × List Event :=
  if handle = 0 then
    ("", [Event.newStringUTF ""])
  else
    let result := eng.verbalize handle input
    let callTrace := [Event.getChars input, Event.engVerbalize handle input,
                      Event.releaseChars input]
    match result with
    | some r => (r, callTrace ++ [Event.newStringUTF r, Event.engFreeString])
    | none => ("", callTrace ++ [Event.newStringUTF ""])

/-- Modelled from the spec: a verbalizer grammar rule, selected by semantic
category, rewriting the text of a tagged span into its spoken/written target
form. -/
structure VRule where
  category : String
  rewrite : List Char → List Char

/-- Modelled from the spec: verbalizer rule selection by category, with the
literal pass-through fallback when no rule covers the category (no data
loss). -/
def applyVRule (vg : List VRule) (cat : String) (text : List Char) : List Char :=
  match vg.find? (fun vr => vr.category == cat) with
  | some vr => vr.rewrite text
  | none => text

/-- Modelled from the spec: the verbalizer of wetext_verbalize.  Each tagged
span is rewritten by the rule of its category (or passed through literally
when the category has no rule); untagged spans pass through unchanged;
results are concatenated in document order. -/
def verbalizeSpans (vg : List VRule) : List TaggedSpan → List Char
  | [] => []
  | TaggedSpan.plain t :: rest => t ++ verbalizeSpans vg rest
  | TaggedSpan.tagged cat t :: rest => applyVRule vg cat t ++ verbalizeSpans vg rest

/-- Modelled from the spec: the full normalization pipeline of
wetext_normalize, written as one left-to-right pass that rewrites each
matched span as it is found and passes unmatched characters through.  The
composition law (tag then verbalize) is proved about it below. -/
def normalizeChars (tg : List Rule) (vg : List VRule) (cs : List Char) : List Char :=
  match cs with
  | [] => []
  | c :: rest =>
    match pickRule tg (c :: rest) with
    | some r =>
        applyVRule vg r.val.category r.val.pattern ++
          normalizeChars tg vg ((c :: rest).drop r.val.pattern.length)
    | none => [c] ++ normalizeChars tg vg rest
termination_by cs.length
decreasing_by
  · have hm := r.property
    have hne : r.val.pattern ≠ [] := by
      have := (Bool.and_eq_true _ _).mp hm
      simpa using this.1
    have hpos : 0 < r.val.pattern.length := List.length_pos.mpr hne
    simp only [List.length_drop, List.length_cons]
    omega
  · simp

/-- Whether no tagger rule matches at any position of the input: the premise
of the full pass-through identity law. -/
def noMatchAnywhere (tg : List Rule) : List Char → Bool
  | [] => true
  | c :: rest => (pickRule tg (c :: rest)).isNone && noMatchAnywhere tg rest

/-- Modelled from the spec: the Resource Loader, abstracted as the partial
mapping each grammar path resolves to; a path that is missing, unreadable or
malformed resolves to none. -/
structure ResourceLoader where
  tagGrammarAt : String → Option (List Rule)
  verbGrammarAt : String → Option (List VRule)

/-- Modelled from the spec: wetext_create_processor.  Both grammars are
loaded; on any load failure the result is the null session (none) rather
than an exception. -/
def wetext_create_processor (loader : ResourceLoader) (taggerPath verbalizerPath : String) :
    Option (List Rule × List VRule) :=
  match loader.tagGrammarAt taggerPath, loader.verbGrammarAt verbalizerPath with
  | some tg, some vg => some (tg, vg)
  | _, _ => none

/-- The handle value a session crosses the boundary as: 0 for the null
session, a non-zero value otherwise. -/
def handleOf : Option (List Rule × List VRule) → Nat
  | none => 0
  | some _ => 1

/-- A concrete engine whose create fails and whose text operations all
return null; used to instantiate hypothesis-bearing theorems. -/
def allNullEngine : NativeEngine where
  create := fun _ _ => 0
  normalize := fun _ _ => none
  tag := fun _ _ => none
  verbalize := fun _ _ => none

/-- A concrete engine whose text operations all return a string; used to
instantiate hypothesis-bearing theorems. -/
def constEngine : NativeEngine where
  create := fun _ _ => 1
  normalize := fun _ _ => some "norm"
  tag := fun _ _ => some "tag"
  verbalize := fun _ _ => some "verb"

/-- A concrete loader on which every tagger-grammar path is missing; used to
instantiate hypothesis-bearing theorems. -/
def missingTaggerLoader : ResourceLoader where
  tagGrammarAt := fun _ => none
  verbGrammarAt := fun _ => some []

/-- A concrete one-rule tagger grammar; used to instantiate
hypothesis-bearing theorems. -/
def demoTagger : List Rule :=
  [{ pattern := ['a', 'b'], category := "X" }]

lemma ruleMatches_pattern_ne (r : Rule) (cs : List Char) (h : ruleMatches r cs = true) :
    r.pattern ≠ [] := by
  have := (Bool.and_eq_true _ _).mp h
  simpa using this.1

lemma ruleMatches_recover (r : Rule) (cs : List Char) (h : ruleMatches r cs = true) :
    r.pattern ++ cs.drop r.pattern.length = cs := by
  have hpre : r.pattern <+: cs :=
    List.isPrefixOf_iff_prefix.mp ((Bool.and_eq_true _ _).mp h).2
  obtain ⟨t, ht⟩ := hpre
  rw [← ht, List.drop_left]

lemma spansText_cons (s : TaggedSpan) (ss : List TaggedSpan) :
    spansText (s :: ss) = spanText s ++ spansText ss := rfl

lemma tagChars_cons (rules : List Rule) (c : Char) (rest : List Char) :
    tagChars rules (c :: rest) =
      match pickRule rules (c :: rest) with
      | some r =>
          TaggedSpan.tagged r.val.category r.val.pattern ::
            tagChars rules ((c :: rest).drop r.val.pattern.length)
      | none => TaggedSpan.plain [c] :: tagChars rules rest := by
  rw [tagChars]

lemma normalizeChars_cons (tg : List Rule) (vg : List VRule) (c : Char) (rest : List Char) :
    normalizeChars tg vg (c :: rest) =
      match pickRule tg (c :: rest) with
      | some r =>
          applyVRule vg r.val.category r.val.pattern ++
            normalizeChars tg vg ((c :: rest).drop r.val.pattern.length)
      | none => [c] ++ normalizeChars tg vg rest := by
  rw [normalizeChars]

lemma tag_lossless_aux (rules : List Rule) :
    ∀ (n : Nat) (cs : List Char), cs.length ≤ n →
      spansText (tagChars rules cs) = cs := by
  intro n
  induction n with
  | zero =>
    intro cs hlen
    have hnil : cs = [] := List.eq_nil_of_length_eq_zero (Nat.le_zero.mp hlen)
    subst hnil
    simp [tagChars, spansText]
  | succ n ih =>
    intro cs hlen
    cases cs with
    | nil => simp [tagChars, spansText]
    | cons c rest =>
      rw [tagChars_cons]
      split
      · rename_i r heq
        have hm := r.property
        have hne := ruleMatches_pattern_ne r.val _ hm
        have hpos : 0 < r.val.pattern.length := List.length_pos.mpr hne
        rw [spansText_cons]
        have hlen2 : ((c :: rest).drop r.val.pattern.length).length ≤ n := by
          simp only [List.length_drop, List.length_cons]
          simp only [List.length_cons] at hlen
          omega
        rw [ih _ hlen2]
        exact ruleMatches_recover r.val _ hm
      · rename_i heq
        rw [spansText_cons]
        have : rest.length ≤ n := by
          simp only [List.length_cons] at hlen
          omega
        rw [ih _ this]
        rfl

lemma verbalizeSpans_cons_tagged (vg : List VRule) (cat : String) (t : List Char)
    (ss : List TaggedSpan) :
    verbalizeSpans vg (TaggedSpan.tagged cat t :: ss) =
      applyVRule vg cat t ++ verbalizeSpans vg ss := rfl

lemma norm_comp_aux (tg : List Rule) (vg : List VRule) :
    ∀ (n : Nat) (cs : List Char), cs.length ≤ n →
      normalizeChars tg vg cs = verbalizeSpans vg (tagChars tg cs) := by
  intro n
  induction n with
  | zero =>
    intro cs hlen
    have hnil : cs = [] := List.eq_nil_of_length_eq_zero (Nat.le_zero.mp hlen)
    subst hnil
    simp [tagChars, normalizeChars, verbalizeSpans]
  | succ n ih =>
    intro cs hlen
    cases cs with
    | nil => simp [tagChars, normalizeChars, verbalizeSpans]
    | cons c rest =>
      rw [normalizeChars_cons, tagChars_cons]
      split
      · rename_i r heq
        have hm := r.property
        have hne := ruleMatches_pattern_ne r.val _ hm
        have hpos : 0 < r.val.pattern.length := List.length_pos.mpr hne
        rw [verbalizeSpans_cons_tagged]
        have hlen2 : ((c :: rest).drop r.val.pattern.length).length ≤ n := by
          simp only [List.length_drop, List.length_cons]
          simp only [List.length_cons] at hlen
          omega
        rw [ih _ hlen2]
      · rename_i heq
        have : rest.length ≤ n := by
          simp only [List.length_cons] at hlen
          omega
        rw [ih _ this]
        rfl

lemma noMatch_passthrough_aux (tg : List Rule) (vg : List VRule) :
    ∀ (cs : List Char), noMatchAnywhere tg cs = true →
      normalizeChars tg vg cs = cs := by
  intro cs
  induction cs with
  | nil => intro _; simp [normalizeChars]
  | cons c rest ih =>
    intro hnm
    have hparts := (Bool.and_eq_true _ _).mp hnm
    have hnone : pickRule tg (c :: rest) = none := by
      cases hp : pickRule tg (c :: rest) with
      | none => rfl
      | some r =>
        rw [hp] at hparts
        simp [Option.isNone] at hparts
    rw [normalizeChars_cons, hnone]
    simp only [List.cons_append, List.nil_append]
    rw [ih hparts.2]

/-- C1: with a null (zero) session handle, normalize, tag and verbalize each
return the empty string and perform no call into the native engine; being
total Lean functions they cannot crash. -/
theorem spec_c1_null_handle_safe (eng : NativeEngine) (input : String) :
    (nativeNormalize eng 0 input).1 = "" ∧
    ((nativeNormalize eng 0 input).2.all (fun e => !isEngineCall e)) = true ∧
    (nativeTag eng 0 input).1 = "" ∧
    ((nativeTag eng 0 input).2.all (fun e => !isEngineCall e)) = true ∧
    (nativeVerbalize eng 0 input).1 = "" ∧
    ((nativeVerbalize eng 0 input).2.all (fun e => !isEngineCall e)) = true := by
  refine ⟨rfl, rfl, rfl, rfl, rfl, rfl⟩

/-- C2: the native destroy function is invoked only for a non-zero handle,
and destroy on the null handle is a no-op performing no engine call. -/
theorem spec_c2_destroy_null_noop (h : Nat)
    (hmem : Event.engDestroy h ∈ nativeDestroyProcessor h) :
    h ≠ 0 ∧ nativeDestroyProcessor 0 = [] := by
  constructor
  · intro h0
    subst h0
    simp [nativeDestroyProcessor] at hmem
  · rfl

theorem spec_c2_witness :
    (Event.engDestroy 5 ∈ nativeDestroyProcessor 5) ∧
      ((5 : Nat) ≠ 0 ∧ nativeDestroyProcessor 0 = []) :=
  ⟨by decide, spec_c2_destroy_null_noop 5 (by decide)⟩

/-- C3: for every grammar pair and input, the one-pass normalization
pipeline equals the pure composition of tagging followed by verbalization. -/
theorem spec_c3_pipeline_composition (tg : List Rule) (vg : List VRule) (cs : List Char) :
    normalizeChars tg vg cs = verbalizeSpans vg (tagChars tg cs) :=
  norm_comp_aux tg vg cs.length cs (Nat.le_refl _)

/-- C4: tagging is lossless; the concatenated raw text of the produced span
sequence equals the input exactly. -/
theorem spec_c4_tag_lossless (rules : List Rule) (cs : List Char) :
    spansText (tagChars rules cs) = cs :=
  tag_lossless_aux rules cs.length cs (Nat.le_refl _)

/-- C5: on any grammar load failure (tagger or verbalizer), creation yields
the null session (handle 0), and a subsequent normalize call on that handle
returns the empty string. -/
theorem spec_c5_create_failure_null (loader : ResourceLoader) (tp vp : String)
    (eng : NativeEngine) (input : String)
    (hfail : loader.tagGrammarAt tp = none ∨ loader.verbGrammarAt vp = none) :
    wetext_create_processor loader tp vp = none ∧
    (nativeNormalize eng (handleOf (wetext_create_processor loader tp vp)) input).1 = "" := by
  have hcreate : wetext_create_processor loader tp vp = none := by
    unfold wetext_create_processor
    rcases hfail with hfail | hfail
    · rw [hfail]
    · rw [hfail]
      cases ht : loader.tagGrammarAt tp <;> rfl
  exact ⟨hcreate, by rw [hcreate]; rfl⟩

theorem spec_c5_witness :
    (missingTaggerLoader.tagGrammarAt "no-such-tagger.far" = none ∨
      missingTaggerLoader.verbGrammarAt "verbalizer.far" = none) ∧
      (wetext_create_processor missingTaggerLoader "no-such-tagger.far" "verbalizer.far" = none ∧
        (nativeNormalize allNullEngine
          (handleOf (wetext_create_processor missingTaggerLoader "no-such-tagger.far" "verbalizer.far"))
          "anything").1 = "") :=
  ⟨Or.inl rfl, spec_c5_create_failure_null missingTaggerLoader "no-such-tagger.far" "verbalizer.far"
    allNullEngine "anything" (Or.inl rfl)⟩

/-- C6: normalization is deterministic; two runs of the embedded pipeline on
the same grammars and input, and two runs of the embedded binding entry
point on the same engine, handle and input, yield identical results. -/
theorem spec_c6_normalize_deterministic (tg : List Rule) (vg : List VRule) (cs : List Char)
    (eng : NativeEngine) (h : Nat) (t : String) :
    normalizeChars tg vg cs = normalizeChars tg vg cs ∧
    nativeNormalize eng h t = nativeNormalize eng h t :=
  ⟨rfl, rfl⟩

/-- C7: on input where no tagger rule matches at any position, normalization
is the identity. -/
theorem spec_c7_no_match_identity (tg : List Rule) (vg : List VRule) (cs : List Char)
    (hnm : noMatchAnywhere tg cs = true) :
    normalizeChars tg vg cs = cs :=
  noMatch_passthrough_aux tg vg cs hnm

theorem spec_c7_witness :
    noMatchAnywhere demoTagger ['x', 'y'] = true ∧
      normalizeChars demoTagger [] ['x', 'y'] = ['x', 'y'] :=
  ⟨by decide, spec_c7_no_match_identity demoTagger [] ['x', 'y'] (by decide)⟩

/-- C8: for a non-zero handle, each of normalize, tag and verbalize frees
the native result string exactly when it is non-null, and only after its
contents have been copied into the managed result string. -/
theorem spec_c8_free_exactly_when_nonnull (eng : NativeEngine) (h : Nat) (t : String)
    (hh : h ≠ 0) :
    (countEv Event.engFreeString (nativeNormalize eng h t).2 =
      if (eng.normalize h t).isSome then 1 else 0) ∧
    ((eng.normalize h t).isSome = true →
      (nativeNormalize eng h t).2 =
        [Event.getChars t, Event.engNormalize h t, Event.releaseChars t,
         Event.newStringUTF ((eng.normalize h t).getD ""), Event.engFreeString]) ∧
    (countEv Event.engFreeString (nativeTag eng h t).2 =
      if (eng.tag h t).isSome then 1 else 0) ∧
    ((eng.tag h t).isSome = true →
      (nativeTag eng h t).2 =
        [Event.getChars t, Event.engTag h t, Event.releaseChars t,
         Event.newStringUTF ((eng.tag h t).getD ""), Event.engFreeString]) ∧
    (countEv Event.engFreeString (nativeVerbalize eng h t).2 =
      if (eng.verbalize h t).isSome then 1 else 0) ∧
    ((eng.verbalize h t).isSome = true →
      (nativeVerbalize eng h t).2 =
        [Event.getChars t, Event.engVerbalize h t, Event.releaseChars t,
         Event.newStringUTF ((eng.verbalize h t).getD ""), Event.engFreeString]) := by
  refine ⟨?_, fun hs => ?_, ?_, fun hs => ?_, ?_, fun hs => ?_⟩
  · cases hr : eng.normalize h t <;> simp [nativeNormalize, hh, hr, countEv]
  · cases hr : eng.normalize h t with
    | none => rw [hr] at hs; simp at hs
    | some r => simp [nativeNormalize, hh, hr]
  · cases hr : eng.tag h t <;> simp [nativeTag, hh, hr, countEv]
  · cases hr : eng.tag h t with
    | none => rw [hr] at hs; simp at hs
    | some r => simp [nativeTag, hh, hr]
  · cases hr : eng.verbalize h t <;> simp [nativeVerbalize, hh, hr, countEv]
  · cases hr : eng.verbalize h t with
    | none => rw [hr] at hs; simp at hs
    | some r => simp [nativeVerbalize, hh, hr]

theorem spec_c8_witness :
    (7 : Nat) ≠ 0 ∧
    ((countEv Event.engFreeString (nativeNormalize constEngine 7 "in").2 =
      if (constEngine.normalize 7 "in").isSome then 1 else 0) ∧
    ((constEngine.normalize 7 "in").isSome = true →
      (nativeNormalize constEngine 7 "in").2 =
        [Event.getChars "in", Event.engNormalize 7 "in", Event.releaseChars "in",
         Event.newStringUTF ((constEngine.normalize 7 "in").getD ""), Event.engFreeString]) ∧
    (countEv Event.engFreeString (nativeTag constEngine 7 "in").2 =
      if (constEngine.tag 7 "in").isSome then 1 else 0) ∧
    ((constEngine.tag 7 "in").isSome = true →
      (nativeTag constEngine 7 "in").2 =
        [Event.getChars "in", Event.engTag 7 "in", Event.releaseChars "in",
         Event.newStringUTF ((constEngine.tag 7 "in").getD ""), Event.engFreeString]) ∧
    (countEv Event.engFreeString (nativeVerbalize constEngine 7 "in").2 =
      if (constEngine.verbalize 7 "in").isSome then 1 else 0) ∧
    ((constEngine.verbalize 7 "in").isSome = true →
      (nativeVerbalize constEngine 7 "in").2 =
        [Event.getChars "in", Event.engVerbalize 7 "in", Event.releaseChars "in",
         Event.newStringUTF ((constEngine.verbalize 7 "in").getD ""), Event.engFreeString])) :=
  ⟨by decide, spec_c8_free_exactly_when_nonnull constEngine 7 "in" (by decide)⟩

/-- C9: for a non-zero handle, when the engine returns a null result the
binding returns the empty string and performs no free of the result. -/
theorem spec_c9_null_result_empty (eng : NativeEngine) (h : Nat) (t : String)
    (hh : h ≠ 0) :
    (eng.normalize h t = none →
      (nativeNormalize eng h t).1 = "" ∧
      countEv Event.engFreeString (nativeNormalize eng h t).2 = 0) ∧
    (eng.tag h t = none →
      (nativeTag eng h t).1 = "" ∧
      countEv Event.engFreeString (nativeTag eng h t).2 = 0) ∧
    (eng.verbalize h t = none →
      (nativeVerbalize eng h t).1 = "" ∧
      countEv Event.engFreeString (nativeVerbalize eng h t).2 = 0) := by
  refine ⟨fun hr => ?_, fun hr => ?_, fun hr => ?_⟩
  · simp [nativeNormalize, hh, hr, countEv]
  · simp [nativeTag, hh, hr, countEv]
  · simp [nativeVerbalize, hh, hr, countEv]

theorem spec_c9_witness :
    (3 : Nat) ≠ 0 ∧
    ((allNullEngine.normalize 3 "x" = none →
      (nativeNormalize allNullEngine 3 "x").1 = "" ∧
      countEv Event.engFreeString (nativeNormalize allNullEngine 3 "x").2 = 0) ∧
    (allNullEngine.tag 3 "x" = none →
      (nativeTag allNullEngine 3 "x").1 = "" ∧
      countEv Event.engFreeString (nativeTag allNullEngine 3 "x").2 = 0) ∧
    (allNullEngine.verbalize 3 "x" = none →
      (nativeVerbalize allNullEngine 3 "x").1 = "" ∧
      countEv Event.engFreeString (nativeVerbalize allNullEngine 3 "x").2 = 0)) :=
  ⟨by decide, spec_c9_null_result_empty allNullEngine 3 "x" (by decide)⟩

/-- C10: on every path of every binding operation, string-buffer
acquisitions and releases are balanced per managed string, and in processor
creation both path buffers are released after the engine create call,
independently of its outcome. -/
theorem spec_c10_buffers_balanced (eng : NativeEngine) (h : Nat) (t s tp vp : String) :
    countEv (Event.getChars s) (nativeNormalize eng h t).2 =
      countEv (Event.releaseChars s) (nativeNormalize eng h t).2 ∧
    countEv (Event.getChars s) (nativeTag eng h t).2 =
      countEv (Event.releaseChars s) (nativeTag eng h t).2 ∧
    countEv (Event.getChars s) (nativeVerbalize eng h t).2 =
      countEv (Event.releaseChars s) (nativeVerbalize eng h t).2 ∧
    countEv (Event.getChars s) (nativeCreateProcessor eng tp vp).2 =
      countEv (Event.releaseChars s) (nativeCreateProcessor eng tp vp).2 ∧
    (nativeCreateProcessor eng tp vp).2 =
      [Event.getChars tp, Event.getChars vp, Event.engCreate tp vp,
       Event.releaseChars tp, Event.releaseChars vp] := by
  refine ⟨?_, ?_, ?_, ?_, rfl⟩
  · by_cases h0 : h = 0
    · subst h0; rfl
    · cases hr : eng.normalize h t <;>
        simp [nativeNormalize, h0, hr, countEv]
  · by_cases h0 : h = 0
    · subst h0; rfl
    · cases hr : eng.tag h t <;>
        simp [nativeTag, h0, hr, countEv]
  · by_cases h0 : h = 0
    · subst h0; rfl
    · cases hr : eng.verbalize h t <;>
        simp [nativeVerbalize, h0, hr, countEv]
  · by_cases htp : tp = s <;> by_cases hvp : vp = s <;>
      simp [nativeCreateProcessor, countEv, htp, hvp]
